import Mathlib

/-!
Verification development for the reactivity and scheduling core of a
Vue-2.6-style client-side framework (files `core/observer/dep`, `watcher`,
`scheduler`, `observer/index`, `observer/array`).

The JavaScript source is shallowly embedded: the cyclic Dep/Watcher object
graph is modelled as registries keyed by integer ids (`dep.subs` stores
watcher ids, `watcher.deps` stores dep ids), mutation becomes explicit state
passing, and the host-supplied pieces (user getters, `nextTick`) are
abstracted by the sequence of reactive reads / enqueues they perform.
-/

namespace VueCore

/-- JavaScript runtime values, as far as the reactivity core inspects them:
`nan` is IEEE NaN (the one value with `x !== x`), `num`/`str`/`boolV` are
primitives compared by value under `===`, `undef`/`nullV` are the unit-like
primitives, and `obj id` is a heap reference compared by identity. -/
inductive JVal : Type
  | nan : JVal
  | num : Int → JVal
  | str : String → JVal
  | boolV : Bool → JVal
  | undef : JVal
  | nullV : JVal
  | obj : Nat → JVal
deriving DecidableEq, Repr

/-- JavaScript strict equality `===`: NaN is not equal to anything (itself
included); every other value is equal exactly to itself (objects by
identity, which the `obj id` constructor models). -/
def jsStrictEq : JVal → JVal → Bool
  | .nan, _ => false
  | _, .nan => false
  | a, b => a == b

/-- State of one reactive property installed by `defineReactive` on the
plain-data path (no pre-existing getter/setter on the descriptor, i.e. the
`walk` path where `val = obj[key]`): the closed-over `val` and the number of
`dep.notify()` calls the property's dep has issued.  Re-observation of the
new value (`childOb = observe(newVal)`) touches a different object and is
logged separately. -/
structure PropState : Type where
  val : JVal
  notifies : Nat
  reobserved : List JVal
deriving DecidableEq, Repr

/-- The `reactiveSetter` closure from `defineReactive`
(src/core/observer/index.js, set branch), on the plain-data path where the
original descriptor had no getter and no setter: read the current value,
return when `newVal === value || (newVal !== newVal && value !== value)`,
otherwise store `newVal`, re-observe it, and fire `dep.notify()` once. -/
def reactiveSetter (s : PropState) (newVal : JVal) : PropState :=
  let value := s.val
  if jsStrictEq newVal value || (!jsStrictEq newVal newVal && !jsStrictEq value value) then
    s
  else
    { val := newVal
      notifies := s.notifies + 1
      reobserved := s.reobserved ++ [newVal] }

/-! ## The Dep / Watcher registries

`Dep` and `Watcher` reference each other cyclically in the source.  Following
the registry reading, a dep is identified by its `id` (`uid++` in dep.js) and
a watcher by its `id` (`++uid` in watcher.js); `dep.subs` becomes a map from
dep id to the ordered list of subscribed watcher ids, and the per-watcher
dependency bookkeeping (`deps`, `depIds`, `newDeps`, `newDepIds`, `active`)
becomes a map from watcher id to a `WatcherSt`. -/

/-- Per-watcher dependency-collection state: the fields of `class Watcher`
that `addDep` / `cleanupDeps` / `teardown` read and write.  `deps`/`newDeps`
are the `Array<Dep>` fields (lists of dep ids, in push order);
`depIds`/`newDepIds` are the `SimpleSet` fields (lists with set membership;
`add` appends). -/
structure WatcherSt : Type where
  deps : List Nat
  depIds : List Nat
  newDeps : List Nat
  newDepIds : List Nat
  active : Bool
deriving DecidableEq, Repr

/-- A freshly constructed watcher: empty dependency sets, `active = true`
(`this.deps = []; this.depIds = new Set(); ...; this.active = true`). -/
def WatcherSt.fresh : WatcherSt :=
  { deps := [], depIds := [], newDeps := [], newDepIds := [], active := true }

/-- Joint state of every dep's subscriber list and every watcher's
dependency bookkeeping, plus the owning vm's `_watchers` list and
`_isBeingDestroyed` flag (read by `teardown`). -/
structure DWState : Type where
  subs : Nat → List Nat
  w : Nat → WatcherSt
  vmWatchers : List Nat
  isBeingDestroyed : Bool

/-- The `remove` helper from shared/util: `indexOf` + `splice(i, 1)`,
i.e. delete the first occurrence, leave the list unchanged when absent. -/
def removeFirst : List Nat → Nat → List Nat
  | [], _ => []
  | x :: xs, a => if x = a then xs else x :: removeFirst xs a

/-- Source `Dep.prototype.addSub(sub)`: `this.subs.push(sub)`. -/
def depAddSub (s : DWState) (d wid : Nat) : DWState :=
  { s with subs := fun d' => if d' = d then s.subs d' ++ [wid] else s.subs d' }

/-- Source `Dep.prototype.removeSub(sub)`: `remove(this.subs, sub)`. -/
def depRemoveSub (s : DWState) (d wid : Nat) : DWState :=
  { s with subs := fun d' => if d' = d then removeFirst (s.subs d') wid else s.subs d' }

/-- Replace watcher `wid`'s bookkeeping. -/
def setW (s : DWState) (wid : Nat) (ws : WatcherSt) : DWState :=
  { s with w := fun i => if i = wid then ws else s.w i }

/-- Source `Watcher.prototype.addDep(dep)` with `this = wid` and `dep.id = d`: if
`d` is not yet in `newDepIds`, record it in `newDepIds`/`newDeps`, and if it
is also not in the previous cycle's `depIds`, call `dep.addSub(this)`. -/
def addDep (s : DWState) (wid d : Nat) : DWState :=
  let ws := s.w wid
  if d ∈ ws.newDepIds then s
  else
    let s' := setW s wid
      { ws with newDepIds := ws.newDepIds ++ [d], newDeps := ws.newDeps ++ [d] }
    if d ∈ ws.depIds then s' else depAddSub s' d wid

/-- The `while (i--)` loops of `cleanupDeps` and `teardown`, on the dep-id ↦
subscriber-list map: walk `ds` (the watcher's `deps`, last to first) and
perform `dep.removeSub(this)` on every dep whose id is not in `keepIds`
(`cleanupDeps` keeps the deps re-collected in `newDepIds`; `teardown` keeps
nothing). -/
def removeSubsMap (subs : Nat → List Nat) (wid : Nat) (ds keepIds : List Nat) :
    Nat → List Nat :=
  match ds with
  | [] => subs
  | d :: rest =>
      let subs' := if d ∈ keepIds then subs
        else fun d' => if d' = d then removeFirst (subs d') wid else subs d'
      removeSubsMap subs' wid rest keepIds

/-- The same loop lifted to the whole state (only `subs` is touched). -/
def removeSubs (s : DWState) (wid : Nat) (ds keepIds : List Nat) : DWState :=
  { s with subs := removeSubsMap s.subs wid ds keepIds }

/-- Source `Watcher.prototype.cleanupDeps()`: drop this watcher from the subs of
every dep of the previous cycle that was not re-collected, then swap the
collection buffers — `depIds ⇄ newDepIds` clearing the new side, `deps ⇄
newDeps` truncating the new side. -/
def cleanupDeps (s : DWState) (wid : Nat) : DWState :=
  let ws := s.w wid
  let s' := removeSubs s wid ws.deps.reverse ws.newDepIds
  setW s' wid
    { deps := ws.newDeps, depIds := ws.newDepIds
      newDeps := [], newDepIds := [], active := ws.active }

/-- Source `Watcher.prototype.teardown()`: if still active, remove this watcher
from the vm's `_watchers` list (skipped when the vm is being destroyed),
remove it from every dep's subscriber list (note: `this.deps` itself is NOT
cleared), and clear `active`. -/
def teardown (s : DWState) (wid : Nat) : DWState :=
  let ws := s.w wid
  if ws.active then
    let s1 :=
      if s.isBeingDestroyed then s
      else { s with vmWatchers := removeFirst s.vmWatchers wid }
    let s2 := removeSubs s1 wid ws.deps.reverse []
    setW s2 wid { ws with active := false }
  else s

/-- Source `Watcher.prototype.get()`, seen through its effect on the registries:
`pushTarget(this)` makes this watcher the target, the user getter then fires
`dep.depend()` — i.e. `Dep.target.addDep(dep)` — once per reactive read, in
some order `touched` (a list of dep ids, repetitions allowed), and the
`finally` block pops the target and runs `cleanupDeps()`.  The getter body
is host code, so it is abstracted by `touched`: the sequence of deps whose
`depend()` ran with this watcher on top of the target stack. -/
def getDeps (s : DWState) (wid : Nat) (touched : List Nat) : DWState :=
  cleanupDeps (touched.foldl (fun s' d => addDep s' wid d) s) wid

/-- Source `Dep.prototype.notify()`, seen as the snapshot of watchers whose
`update()` it invokes: `this.subs.slice()` (the dev-only `!config.async`
sort reorders but never changes membership). -/
def notifyTargets (s : DWState) (d : Nat) : List Nat :=
  s.subs d

/-- Source `Watcher.prototype.run()`'s effect on the registries: a no-op unless
`this.active`, otherwise a re-evaluation via `this.get()` (the value
bookkeeping and the callback are host-facing and do not touch the
dep/watcher registries). -/
def runDeps (s : DWState) (wid : Nat) (touched : List Nat) : DWState :=
  if (s.w wid).active then getDeps s wid touched else s

/-- Folding `addDep` over the reads performed by one getter evaluation. -/
def addDepsList (s : DWState) (wid : Nat) (touched : List Nat) : DWState :=
  touched.foldl (fun s' d => addDep s' wid d) s

/-! ## Well-formedness of the registries

Between the start of a collection cycle and its `cleanupDeps`, a dep's
subscriber list holds exactly the active watchers that recorded it either in
the previous cycle (`depIds`) or in the current one (`newDepIds`) — that is
the generalized form of the quiescent mutual-membership invariant, and it is
what `addDep` actually maintains mid-collection.  `coh` records that the
`deps` array and the `depIds` set (and their `new` counterparts) always hold
the same dep ids. -/
structure Wf (s : DWState) : Prop where
  inv : ∀ d wid, (s.w wid).active = true →
      (wid ∈ s.subs d ↔ (d ∈ (s.w wid).depIds ∨ d ∈ (s.w wid).newDepIds))
  nodup : ∀ d, (s.subs d).Nodup
  coh : ∀ wid, (∀ d, d ∈ (s.w wid).deps ↔ d ∈ (s.w wid).depIds) ∧
               (∀ d, d ∈ (s.w wid).newDeps ↔ d ∈ (s.w wid).newDepIds)

/-- A tiny concrete registry: dep 0 has watcher 1 subscribed; watcher 1 is
active and fully collected with `deps = depIds = [0]`; every other watcher
slot is empty and inactive. -/
def dwCex : DWState :=
  { subs := fun d => if d = 0 then [1] else []
    w := fun i => if i = 1 then
        { deps := [0], depIds := [0], newDeps := [], newDepIds := [], active := true }
      else { deps := [], depIds := [], newDeps := [], newDepIds := [], active := false }
    vmWatchers := [1]
    isBeingDestroyed := false }

/-! ## The scheduler

scheduler.js keeps a process-wide queue of watcher ids, a `has` dedup set, a
`circular` counter (dev-mode infinite-update guard), the `waiting` /
`flushing` flags and the drain position `index`.  `runOrder` and `warned`
are instrumentation recording, respectively, the sequence of `watcher.run()`
calls made by the flush and the watcher named by the infinite-update-loop
diagnostic (`warn('You may have an infinite update loop ...')`); neither
feeds back into the scheduler.  A watcher's `run` is host-facing code; its
effect on the scheduler is the sequence of `queueWatcher` calls its
notifications trigger, abstracted by a behavior `beh : id → prior run count
→ enqueued ids`. -/

/-- Source `export const MAX_UPDATE_COUNT = 100`. -/
def MAX_UPDATE_COUNT : Nat := 100

structure SchedState : Type where
  queue : List Nat
  has : Nat → Bool
  circular : Nat → Nat
  waiting : Bool
  flushing : Bool
  index : Nat
  runOrder : List Nat
  warned : Option Nat

/-- JavaScript `queue.splice(p, 0, a)`: insert `a` at position `p`,
appending when `p` exceeds the length (splice clamps the start index). -/
def insertAt : List Nat → Nat → Nat → List Nat
  | l, 0, a => a :: l
  | [], _ + 1, a => [a]
  | x :: xs, n + 1, a => x :: insertAt xs n a

/-- The scan `let i = queue.length - 1; while (i > index && queue[i].id >
watcher.id) i--` from `queueWatcher`, run from position `i` downwards;
returns the final `i`. -/
def insertLoop (queue : List Nat) (index wid : Nat) : Nat → Nat
  | 0 => 0
  | i + 1 =>
      if index < i + 1 ∧ wid < queue.getD (i + 1) 0 then
        insertLoop queue index wid i
      else i + 1

/-- The position `i + 1` at which `queueWatcher` splices a watcher into the
queue while a flush is draining. -/
def insertPos (s : SchedState) (wid : Nat) : Nat :=
  insertLoop s.queue s.index wid (s.queue.length - 1) + 1

/-- Source `queueWatcher(watcher)`: skip when `has[id]` is set; otherwise mark
`has[id]`, then either push to the back (not flushing) or splice by id order
past the current drain position (flushing); finally, when `waiting` is
unset, set it (the `nextTick(flushSchedulerQueue)` scheduling itself is host
territory, and the dev-only `!config.async` inline flush is not taken). -/
def queueWatcher (s : SchedState) (wid : Nat) : SchedState :=
  if s.has wid then s
  else
    let s1 := { s with has := fun i => if i = wid then true else s.has i }
    let s2 :=
      if !s1.flushing then { s1 with queue := s1.queue ++ [wid] }
      else { s1 with queue := insertAt s1.queue (insertPos s1 wid) wid }
    if s2.waiting then s2 else { s2 with waiting := true }

/-- Insertion sort by `≤` on ids, modelling `queue.sort((a, b) => a.id -
b.id)` (queue ids are distinct at flush start, so any correct sort gives the
same list). -/
def insertSorted (a : Nat) : List Nat → List Nat
  | [] => [a]
  | x :: xs => if a ≤ x then a :: x :: xs else x :: insertSorted a xs

def sortByIds : List Nat → List Nat
  | [] => []
  | x :: xs => insertSorted x (sortByIds xs)

/-- The `for (index = 0; index < queue.length; index++)` drain loop of
`flushSchedulerQueue`, fuelled (the live `queue.length` bound is re-read
every iteration because running watchers enqueue more).  Each iteration:
clear `has[id]` before `run()`, run the watcher (its `queueWatcher` calls
come from `beh`, fed with how many times it has run in this flush), then the
dev-mode guard — if `has[id]` was set again during its own run, bump
`circular[id]` and, past `MAX_UPDATE_COUNT`, emit the diagnostic naming the
watcher and break out of the drain.  The `watcher.before()` hook is
host-facing and registry-neutral. -/
def flushLoop (beh : Nat → Nat → List Nat) : Nat → SchedState → SchedState
  | 0, s => s
  | fuel + 1, s =>
      if s.index < s.queue.length then
        let wid := s.queue.getD s.index 0
        let s3 := (beh wid (s.runOrder.count wid)).foldl queueWatcher
          { s with has := fun i => if i = wid then false else s.has i
                   runOrder := s.runOrder ++ [wid] }
        if s3.has wid then
          if MAX_UPDATE_COUNT < s3.circular wid + 1 then
            { s3 with
                circular := fun i =>
                  if i = wid then s3.circular wid + 1 else s3.circular i
                warned := some wid }
          else
            flushLoop beh fuel
              { s3 with
                  circular := fun i =>
                    if i = wid then s3.circular wid + 1 else s3.circular i
                  index := s3.index + 1 }
        else flushLoop beh fuel { s3 with index := s3.index + 1 }
      else s

/-- Source `resetSchedulerState()`: `index = queue.length = 0; has = {}; circular =
{}; waiting = flushing = false` (instrumentation fields are kept — they are
not scheduler state). -/
def resetSchedulerState (s : SchedState) : SchedState :=
  { s with index := 0, queue := [], has := fun _ => false
           circular := fun _ => 0, waiting := false, flushing := false }

/-- Source `flushSchedulerQueue()`: set `flushing`, sort the queue by ascending id,
drain it from `index = 0`, then reset the scheduler state (the
`currentFlushTimestamp` stamp and the post-drain `activated`/`updated` hook
deliveries are host-facing). -/
def flushSchedulerQueue (beh : Nat → Nat → List Nat) (fuel : Nat)
    (s : SchedState) : SchedState :=
  resetSchedulerState
    (flushLoop beh fuel
      { s with flushing := true, queue := sortByIds s.queue, index := 0 })

/-- Decides whether a list of watcher ids is strictly ascending. -/
def ascendingIds : List Nat → Bool
  | [] => true
  | [_] => true
  | x :: y :: rest => x < y && ascendingIds (y :: rest)

/-- A scheduler state with `q` pending (each pending id marked in `has`, as
`queueWatcher` left it) and a flush scheduled. -/
def schedInit (q : List Nat) : SchedState :=
  { queue := q
    has := fun i => q.contains i
    circular := fun _ => 0
    waiting := true
    flushing := false
    index := 0
    runOrder := []
    warned := none }

/-! ## observe / Observer

observe(value) attaches at most one Observer to an object; the object's
hidden `__ob__` back-pointer becomes a map `ob : object id → observer id`,
the Observer's `dep.id`/`vmCount` live in parallel maps, `nextUid` is the
observer-allocation counter, and `walked` logs which objects were walked
(records) or element-observed (arrays) by an Observer constructor — the
recursive observation of children inside `walk`/`observeArray` is host-value
territory and is abstracted by that log, since every claim about `observe`
on an already-observed value returns before reaching it. -/

/-- The shapes of values `observe` distinguishes: non-objects, virtual-DOM
nodes, plain records (`isPlainObject`; `isVue` marks component instances,
which also pass that test), and arrays; `extensible` is
`Object.isExtensible`. -/
inductive OValue : Type
  | prim : OValue
  | vnode (id : Nat) : OValue
  | plain (id : Nat) (extensible : Bool) (isVue : Bool) : OValue
  | arr (id : Nat) (extensible : Bool) : OValue
deriving DecidableEq, Repr

/-- Test `isObject(value) && !(value instanceof VNode)` — the values that pass
observe's first gate. -/
def OValue.observable : OValue → Bool
  | .prim => false
  | .vnode _ => false
  | .plain _ _ _ => true
  | .arr _ _ => true

/-- The heap identity of the value (0 for primitives, which have none). -/
def OValue.objId : OValue → Nat
  | .prim => 0
  | .vnode i => i
  | .plain i _ _ => i
  | .arr i _ => i

/-- Test `Array.isArray(value) || isPlainObject(value)`. -/
def OValue.isArrayOrPlain : OValue → Bool
  | .plain _ _ _ => true
  | .arr _ _ => true
  | _ => false

/-- Test `Object.isExtensible(value)`. -/
def OValue.extensible : OValue → Bool
  | .plain _ e _ => e
  | .arr _ e => e
  | _ => false

/-- Test `value._isVue`. -/
def OValue.isVue : OValue → Bool
  | .plain _ _ b => b
  | _ => false

structure ObsHeap : Type where
  ob : Nat → Option Nat
  vmCount : Nat → Nat
  nextUid : Nat
  walked : List Nat
  shouldObserve : Bool
  serverRendering : Bool

/-- Source `observe(value, asRootData)`: bail out on non-objects and VNodes; reuse
the existing Observer when the value's `__ob__` is set; otherwise, when
`shouldObserve && !isServerRendering() && (isArray || isPlainObject) &&
isExtensible && !_isVue`, allocate a fresh Observer (attach the back-pointer,
bump the uid counter, walk the value); finally `if (asRootData && ob)
ob.vmCount++`. -/
def observe (h : ObsHeap) (v : OValue) (asRootData : Bool) :
    Option Nat × ObsHeap :=
  if v.observable = false then (none, h)
  else
    match h.ob v.objId with
    | some o =>
        (some o,
          if asRootData then
            { h with vmCount := fun i => if i = o then h.vmCount i + 1 else h.vmCount i }
          else h)
    | none =>
        if h.shouldObserve && !h.serverRendering && v.isArrayOrPlain &&
            v.extensible && !v.isVue then
          let o := h.nextUid
          let h1 := { h with
            ob := fun i => if i = v.objId then some o else h.ob i
            nextUid := h.nextUid + 1
            walked := h.walked ++ [v.objId] }
          (some o,
            if asRootData then
              { h1 with vmCount := fun i => if i = o then h1.vmCount i + 1 else h1.vmCount i }
            else h1)
        else (none, h)

/-! ## set / del on observed records

An observed record is a list of own fields, each installed by
`defineReactive` with its per-key dep's subscriber list; `structSubs` is the
subscriber list of the record Observer's structural dep (`ob.dep.subs`), and
`updates` logs the watcher ids on which `update()` has been invoked by
notifies, in dispatch order (a `notify()` appends its subs snapshot). -/

structure RField : Type where
  key : String
  value : JVal
  subs : List Nat
deriving DecidableEq, Repr

structure RecState : Type where
  fields : List RField
  isVue : Bool
  hasOb : Bool
  vmCount : Nat
  structSubs : List Nat
  updates : List Nat
deriving DecidableEq, Repr

/-- Test `hasOwn(target, key)` over the record's own fields. -/
def hasOwnField (s : RecState) (k : String) : Bool :=
  s.fields.any (fun f => f.key == k)

/-- Assignment `target[key] = val` on an existing reactive field: the installed
`reactiveSetter` runs — skip on `===`-equal (or NaN/NaN) values, otherwise
store and notify the field's dep (returning the update()-targets of that
notify). -/
def writeField : List RField → String → JVal → List RField × List Nat
  | [], _, _ => ([], [])
  | f :: rest, k, v =>
      if f.key == k then
        if jsStrictEq v f.value || (!jsStrictEq v v && !jsStrictEq f.value f.value) then
          (f :: rest, [])
        else ({ f with value := v } :: rest, f.subs)
      else
        let p := writeField rest k v
        (f :: p.1, p.2)

/-- Source `set(target, key, val)` on a non-array target: write through the
existing accessor when the key is present; reject writes on Vue instances
and root `$data` (`vmCount > 0`); plain-assign on unobserved targets;
otherwise `defineReactive(ob.value, key, val)` (a fresh per-key dep, no
subscribers yet) followed by `ob.dep.notify()`. -/
def setRec (s : RecState) (k : String) (v : JVal) : RecState :=
  if hasOwnField s k then
    let p := writeField s.fields k v
    { s with fields := p.1, updates := s.updates ++ p.2 }
  else if s.isVue || (s.hasOb && decide (0 < s.vmCount)) then s
  else if !s.hasOb then { s with fields := s.fields ++ [⟨k, v, []⟩] }
  else
    { s with fields := s.fields ++ [⟨k, v, []⟩]
             updates := s.updates ++ s.structSubs }

/-- Reading `target[key]` outside any evaluating watcher (no dep
registration): the stored value of the own field, when present. -/
def getRec (s : RecState) (k : String) : Option JVal :=
  (s.fields.find? (fun f => f.key == k)).map (fun f => f.value)

/-- Source `del(target, key)` on a non-array target: reject on Vue instances and
root `$data`; return silently when the key is not an own property; otherwise
`delete target[key]` and, when the target is observed, `ob.dep.notify()`. -/
def delRec (s : RecState) (k : String) : RecState :=
  if s.isVue || (s.hasOb && decide (0 < s.vmCount)) then s
  else if !(hasOwnField s k) then s
  else
    let fs := s.fields.eraseP (fun f => f.key == k)
    if !s.hasOb then { s with fields := fs }
    else { s with fields := fs, updates := s.updates ++ s.structSubs }

/-! ## Intercepted array mutators

array.js patches the seven mutating Array.prototype methods with a wrapper
that (1) applies the original method, (2) observes any newly inserted
elements (`push`/`unshift`: the argument list; `splice`: `args.slice(2)`),
and (3) fires the array Observer's structural dep.  The original methods are
embedded with their JavaScript semantics over an element list; a sort
comparator is carried in the operation (engines' Array#sort is stable, as is
the insertion sort used here).  Observing an inserted element only attaches
hidden `__ob__` metadata, so it is logged beside the elements rather than
inside them. -/

inductive ArrayOp (V : Type) : Type
  | push (args : List V)
  | pop
  | shift
  | unshift (args : List V)
  | splice (start : Int) (deleteCount : Option Int) (items : List V)
  | sortBy (le : V → V → Bool)
  | reverse

/-- JavaScript return values of the seven methods: new length
(`push`/`unshift`), removed element or `undefined` (`pop`/`shift`), the
removed slice (`splice`), or the array itself (`sort`/`reverse`). -/
inductive ArrRet (V : Type) : Type
  | len (n : Nat)
  | elem (v : Option V)
  | removed (l : List V)
  | self (l : List V)

/-- Computes `splice`'s actual start: negative values count from the end (clamped at
0), positive ones are clamped to the length. -/
def spliceStart (len : Nat) (start : Int) : Nat :=
  if start < 0 then ((len : Int) + start).toNat else min start.toNat len

/-- Computes `splice`'s actual delete count: to the end when absent, otherwise
clamped into `[0, len - actualStart]`. -/
def spliceDelCount (len aStart : Nat) (deleteCount : Option Int) : Nat :=
  match deleteCount with
  | none => len - aStart
  | some dc => min dc.toNat (len - aStart)

/-- Stable insertion into a sorted prefix (`Array.prototype.sort` helper). -/
def insertSortedBy {V : Type} (le : V → V → Bool) (a : V) : List V → List V
  | [] => [a]
  | x :: xs => if le a x then a :: x :: xs else x :: insertSortedBy le a xs

/-- Stable sort by the comparator (JavaScript engines' Array#sort is
stable). -/
def sortListBy {V : Type} (le : V → V → Bool) : List V → List V
  | [] => []
  | x :: xs => insertSortedBy le x (sortListBy le xs)

/-- The original `Array.prototype` methods, as (return value, new element
list). -/
def arrayOriginal {V : Type} : ArrayOp V → List V → ArrRet V × List V
  | .push args, l => (.len (l ++ args).length, l ++ args)
  | .pop, l => (.elem l.getLast?, l.dropLast)
  | .shift, l => (.elem l.head?, l.tail)
  | .unshift args, l => (.len (args ++ l).length, args ++ l)
  | .splice start dc items, l =>
      let a := spliceStart l.length start
      let d := spliceDelCount l.length a dc
      (.removed ((l.drop a).take d), l.take a ++ items ++ l.drop (a + d))
  | .sortBy le, l => (.self (sortListBy le l), sortListBy le l)
  | .reverse, l => (.self l.reverse, l.reverse)

structure ArrState (V : Type) : Type where
  elems : List V
  observedLog : List V
  notifies : Nat

/-- The `mutator` wrapper from array.js: `result = original.apply(this,
args)`, compute `inserted` (`push`/`unshift`: args; `splice`:
`args.slice(2)`; otherwise none), `ob.observeArray(inserted)`,
`ob.dep.notify()`, `return result`. -/
def arrayMutator {V : Type} (op : ArrayOp V) (s : ArrState V) :
    ArrRet V × ArrState V :=
  let r := arrayOriginal op s.elems
  let inserted : List V :=
    match op with
    | .push args => args
    | .unshift args => args
    | .splice _ _ items => items
    | _ => []
  (r.1,
    { elems := r.2
      observedLog := s.observedLog ++ inserted
      notifies := s.notifies + 1 })

/-! ## Lemmas about the Dep / Watcher registries -/

/-- The source's skip condition in the reactive setter is exactly Lean-level
equality on `JVal`: `===` succeeds on equal non-NaN values, and the
`x !== x` double-check catches the NaN/NaN pair. -/
theorem jsStrictEq_skip_iff (a b : JVal) :
    (jsStrictEq a b || (!jsStrictEq a a && !jsStrictEq b b)) = true ↔ a = b := by
  cases a <;> cases b <;> simp [jsStrictEq]

theorem removeFirst_sublist (l : List Nat) (a : Nat) :
    List.Sublist (removeFirst l a) l := by
  induction l with
  | nil => exact List.Sublist.refl _
  | cons x xs ih =>
      by_cases h : x = a
      · simp [removeFirst, h]
      · simpa [removeFirst, h] using ih.cons₂ x

theorem mem_removeFirst_of_ne {b a : Nat} (hne : b ≠ a) (l : List Nat) :
    b ∈ removeFirst l a ↔ b ∈ l := by
  induction l with
  | nil => simp [removeFirst]
  | cons x xs ih =>
      by_cases h : x = a
      · subst h
        simp [removeFirst, hne]
      · simp [removeFirst, h, ih]

theorem not_mem_removeFirst_self {l : List Nat} (h : l.Nodup) (a : Nat) :
    a ∉ removeFirst l a := by
  induction l with
  | nil => simp [removeFirst]
  | cons x xs ih =>
      by_cases hx : x = a
      · subst hx
        simpa [removeFirst] using (List.nodup_cons.mp h).1
      · intro hmem
        rcases List.mem_cons.mp (by simpa [removeFirst, hx] using hmem) with h1 | h1
        · exact hx h1.symm
        · exact ih (List.nodup_cons.mp h).2 h1

theorem removeFirst_nodup {l : List Nat} (h : l.Nodup) (a : Nat) :
    (removeFirst l a).Nodup :=
  (removeFirst_sublist l a).nodup h

theorem removeSubsMap_cons_pos (subs : Nat → List Nat) (wid d : Nat)
    (rest keep : List Nat) (h : d ∈ keep) :
    removeSubsMap subs wid (d :: rest) keep = removeSubsMap subs wid rest keep := by
  simp [removeSubsMap, h]

theorem removeSubsMap_cons_neg (subs : Nat → List Nat) (wid d : Nat)
    (rest keep : List Nat) (h : d ∉ keep) :
    removeSubsMap subs wid (d :: rest) keep =
      removeSubsMap
        (fun d' => if d' = d then removeFirst (subs d') wid else subs d')
        wid rest keep := by
  simp [removeSubsMap, h]

theorem removeSubsMap_mem_ne (subs : Nat → List Nat) {wid' wid : Nat}
    (hne : wid' ≠ wid) (ds keep : List Nat) (d : Nat) :
    wid' ∈ removeSubsMap subs wid ds keep d ↔ wid' ∈ subs d := by
  induction ds generalizing subs with
  | nil => rfl
  | cons d0 rest ih =>
      by_cases h : d0 ∈ keep
      · rw [removeSubsMap_cons_pos subs wid d0 rest keep h, ih]
      · rw [removeSubsMap_cons_neg subs wid d0 rest keep h, ih]
        by_cases hd : d = d0
        · subst hd
          simp [mem_removeFirst_of_ne hne]
        · simp [hd]

theorem removeSubsMap_nodup (subs : Nat → List Nat) (wid : Nat)
    (ds keep : List Nat) (h : ∀ d, (subs d).Nodup) :
    ∀ d, (removeSubsMap subs wid ds keep d).Nodup := by
  induction ds generalizing subs with
  | nil => exact h
  | cons d0 rest ih =>
      by_cases hk : d0 ∈ keep
      · rw [removeSubsMap_cons_pos subs wid d0 rest keep hk]
        exact ih subs h
      · rw [removeSubsMap_cons_neg subs wid d0 rest keep hk]
        refine ih _ ?_
        intro d
        by_cases hd : d = d0 <;> simp [hd]
        · exact removeFirst_nodup (h d0) wid
        · exact h d

theorem removeSubsMap_mem_self (subs : Nat → List Nat) (wid : Nat)
    (ds keep : List Nat) (h : ∀ d, (subs d).Nodup) (d : Nat) :
    wid ∈ removeSubsMap subs wid ds keep d ↔
      (wid ∈ subs d ∧ (d ∉ ds ∨ d ∈ keep)) := by
  induction ds generalizing subs with
  | nil => simp [removeSubsMap]
  | cons d0 rest ih =>
      by_cases hk : d0 ∈ keep
      · rw [removeSubsMap_cons_pos subs wid d0 rest keep hk]
        rw [ih subs h]
        constructor
        · rintro ⟨h1, h2⟩
          refine ⟨h1, ?_⟩
          rcases h2 with h2 | h2
          · by_cases hd : d = d0
            · exact Or.inr (hd ▸ hk)
            · exact Or.inl (by simp [hd, h2])
          · exact Or.inr h2
        · rintro ⟨h1, h2⟩
          refine ⟨h1, ?_⟩
          rcases h2 with h2 | h2
          · exact Or.inl (fun hm => h2 (List.mem_cons_of_mem _ hm))
          · exact Or.inr h2
      · rw [removeSubsMap_cons_neg subs wid d0 rest keep hk]
        have hnd : ∀ d,
            ((fun d' => if d' = d0 then removeFirst (subs d') wid else subs d') d).Nodup := by
          intro d
          by_cases hd : d = d0 <;> simp [hd]
          · exact removeFirst_nodup (h d0) wid
          · exact h d
        rw [ih _ hnd]
        by_cases hd : d = d0
        · subst hd
          simp only [if_pos rfl]
          constructor
          · rintro ⟨h1, _⟩
            exact absurd h1 (not_mem_removeFirst_self (h d) wid)
          · rintro ⟨h1, h2⟩
            rcases h2 with h2 | h2
            · exact absurd (List.mem_cons_self d _) h2
            · exact absurd h2 hk
        · simp only [if_neg hd]
          constructor
          · rintro ⟨h1, h2⟩
            refine ⟨h1, ?_⟩
            rcases h2 with h2 | h2
            · exact Or.inl (by simp [hd, h2])
            · exact Or.inr h2
          · rintro ⟨h1, h2⟩
            refine ⟨h1, ?_⟩
            rcases h2 with h2 | h2
            · exact Or.inl (fun hm => h2 (List.mem_cons_of_mem _ hm))
            · exact Or.inr h2

theorem setW_w (s : DWState) (wid : Nat) (ws : WatcherSt) (i : Nat) :
    (setW s wid ws).w i = if i = wid then ws else s.w i := rfl

theorem setW_subs (s : DWState) (wid : Nat) (ws : WatcherSt) :
    (setW s wid ws).subs = s.subs := rfl

theorem depAddSub_w (s : DWState) (d wid : Nat) : (depAddSub s d wid).w = s.w := rfl

theorem depAddSub_subs (s : DWState) (d wid d' : Nat) :
    (depAddSub s d wid).subs d' =
      if d' = d then s.subs d' ++ [wid] else s.subs d' := rfl

theorem addDep_of_mem_new {s : DWState} {wid d : Nat}
    (h1 : d ∈ (s.w wid).newDepIds) : addDep s wid d = s := by
  simp [addDep, h1]

theorem addDep_of_mem_old {s : DWState} {wid d : Nat}
    (h1 : d ∉ (s.w wid).newDepIds) (h2 : d ∈ (s.w wid).depIds) :
    addDep s wid d = setW s wid
      { s.w wid with newDepIds := (s.w wid).newDepIds ++ [d]
                     newDeps := (s.w wid).newDeps ++ [d] } := by
  simp [addDep, h1, h2]

theorem addDep_of_fresh {s : DWState} {wid d : Nat}
    (h1 : d ∉ (s.w wid).newDepIds) (h2 : d ∉ (s.w wid).depIds) :
    addDep s wid d = depAddSub (setW s wid
      { s.w wid with newDepIds := (s.w wid).newDepIds ++ [d]
                     newDeps := (s.w wid).newDeps ++ [d] }) d wid := by
  simp [addDep, h1, h2]

theorem addDep_wf (s : DWState) (wid d : Nat) (hact : (s.w wid).active = true)
    (h : Wf s) : Wf (addDep s wid d) := by
  by_cases h1 : d ∈ (s.w wid).newDepIds
  · rw [addDep_of_mem_new h1]
    exact h
  · by_cases h2 : d ∈ (s.w wid).depIds
    · rw [addDep_of_mem_old h1 h2]
      refine ⟨?_, ?_, ?_⟩
      · intro d' w' hw'
        rw [setW_subs]
        by_cases hww : w' = wid
        · subst hww
          rw [setW_w, if_pos rfl]
          have base := h.inv d' w' hact
          by_cases hd' : d' = d
          · subst hd'
            simp only [List.mem_append, List.mem_singleton]
            constructor
            · intro _
              exact Or.inl h2
            · intro _
              exact base.mpr (Or.inl h2)
          · simpa [List.mem_append, hd'] using base
        · rw [setW_w, if_neg hww]
          exact h.inv d' w' (by rw [setW_w, if_neg hww] at hw'; exact hw')
      · intro d'
        rw [setW_subs]
        exact h.nodup d'
      · intro w'
        by_cases hww : w' = wid
        · subst hww
          rw [setW_w, if_pos rfl]
          refine ⟨(h.coh w').1, ?_⟩
          intro d'
          simp only [List.mem_append, List.mem_singleton]
          rw [(h.coh w').2 d']
        · rw [setW_w, if_neg hww]
          exact h.coh w'
    · rw [addDep_of_fresh h1 h2]
      have hfresh : wid ∉ s.subs d := by
        intro hmem
        rcases (h.inv d wid hact).mp hmem with hc | hc
        · exact h2 hc
        · exact h1 hc
      refine ⟨?_, ?_, ?_⟩
      · intro d' w' hw'
        rw [depAddSub_subs]
        by_cases hww : w' = wid
        · subst hww
          rw [depAddSub_w, setW_w, if_pos rfl] at hw' ⊢
          have base := h.inv d' w' hact
          by_cases hd' : d' = d
          · subst hd'
            rw [setW_subs, if_pos rfl]
            simp
          · rw [setW_subs, if_neg hd']
            simpa [List.mem_append, hd'] using base
        · rw [depAddSub_w, setW_w, if_neg hww] at hw' ⊢
          have base := h.inv d' w' hw'
          by_cases hd' : d' = d
          · subst hd'
            rw [setW_subs, if_pos rfl]
            simp only [List.mem_append, List.mem_singleton]
            constructor
            · intro hin
              rcases hin with hin | hin
              · exact base.mp hin
              · exact absurd hin hww
            · intro hin
              exact Or.inl (base.mpr hin)
          · rw [setW_subs, if_neg hd']
            exact base
      · intro d'
        rw [depAddSub_subs]
        by_cases hd' : d' = d
        · subst hd'
          rw [setW_subs, if_pos rfl]
          exact List.Nodup.append (h.nodup d') (List.nodup_singleton wid)
            (by simpa using hfresh)
        · rw [setW_subs, if_neg hd']
          exact h.nodup d'
      · intro w'
        rw [depAddSub_w]
        by_cases hww : w' = wid
        · subst hww
          rw [setW_w, if_pos rfl]
          refine ⟨(h.coh w').1, ?_⟩
          intro d'
          simp only [List.mem_append, List.mem_singleton]
          rw [(h.coh w').2 d']
        · rw [setW_w, if_neg hww]
          exact h.coh w'

theorem addDep_w_ne (s : DWState) (wid d : Nat) {w' : Nat} (hne : w' ≠ wid) :
    (addDep s wid d).w w' = s.w w' := by
  by_cases h1 : d ∈ (s.w wid).newDepIds
  · rw [addDep_of_mem_new h1]
  · by_cases h2 : d ∈ (s.w wid).depIds
    · rw [addDep_of_mem_old h1 h2, setW_w, if_neg hne]
    · rw [addDep_of_fresh h1 h2, depAddSub_w, setW_w, if_neg hne]

theorem addDep_w_fields (s : DWState) (wid d : Nat) :
    ((addDep s wid d).w wid).depIds = (s.w wid).depIds ∧
    ((addDep s wid d).w wid).deps = (s.w wid).deps ∧
    ((addDep s wid d).w wid).active = (s.w wid).active ∧
    (∀ d', d' ∈ ((addDep s wid d).w wid).newDepIds ↔
        (d' ∈ (s.w wid).newDepIds ∨ d' = d)) := by
  by_cases h1 : d ∈ (s.w wid).newDepIds
  · rw [addDep_of_mem_new h1]
    refine ⟨rfl, rfl, rfl, ?_⟩
    intro d'
    constructor
    · exact Or.inl
    · rintro (hd | hd)
      · exact hd
      · exact hd ▸ h1
  · by_cases h2 : d ∈ (s.w wid).depIds
    · rw [addDep_of_mem_old h1 h2, setW_w, if_pos rfl]
      exact ⟨rfl, rfl, rfl, fun d' => by simp⟩
    · rw [addDep_of_fresh h1 h2, depAddSub_w, setW_w, if_pos rfl]
      exact ⟨rfl, rfl, rfl, fun d' => by simp⟩

theorem addDepsList_cons (s : DWState) (wid t : Nat) (rest : List Nat) :
    addDepsList s wid (t :: rest) = addDepsList (addDep s wid t) wid rest := rfl

theorem addDepsList_spec (touched : List Nat) (s : DWState) (wid : Nat)
    (h : Wf s) (hact : (s.w wid).active = true) :
    Wf (addDepsList s wid touched) ∧
    ((addDepsList s wid touched).w wid).active = true ∧
    ((addDepsList s wid touched).w wid).depIds = (s.w wid).depIds ∧
    ((addDepsList s wid touched).w wid).deps = (s.w wid).deps ∧
    (∀ d, d ∈ ((addDepsList s wid touched).w wid).newDepIds ↔
        (d ∈ (s.w wid).newDepIds ∨ d ∈ touched)) := by
  induction touched generalizing s with
  | nil =>
      refine ⟨h, hact, rfl, rfl, ?_⟩
      intro d
      simp [addDepsList]
  | cons t rest ih =>
      have hstep := addDep_wf s wid t hact h
      have hf := addDep_w_fields s wid t
      have hact' : ((addDep s wid t).w wid).active = true := by
        rw [hf.2.2.1]
        exact hact
      obtain ⟨hwf2, hact2, hids2, hdeps2, hnew2⟩ := ih (addDep s wid t) hstep hact'
      rw [addDepsList_cons]
      refine ⟨hwf2, hact2, hids2.trans hf.1, hdeps2.trans hf.2.1, ?_⟩
      intro d
      rw [hnew2 d, hf.2.2.2 d]
      constructor
      · rintro ((hd | hd) | hd)
        · exact Or.inl hd
        · exact Or.inr (hd ▸ List.mem_cons_self t rest)
        · exact Or.inr (List.mem_cons_of_mem t hd)
      · rintro (hd | hd)
        · exact Or.inl (Or.inl hd)
        · rcases List.mem_cons.mp hd with hd | hd
          · exact Or.inl (Or.inr hd)
          · exact Or.inr hd

theorem cleanupDeps_w_self (s : DWState) (wid : Nat) :
    (cleanupDeps s wid).w wid =
      { deps := (s.w wid).newDeps, depIds := (s.w wid).newDepIds
        newDeps := [], newDepIds := [], active := (s.w wid).active } := by
  simp [cleanupDeps, removeSubs, setW]

theorem cleanupDeps_w_ne (s : DWState) {w' wid : Nat} (hne : w' ≠ wid) :
    (cleanupDeps s wid).w w' = s.w w' := by
  simp [cleanupDeps, removeSubs, setW, hne]

theorem cleanupDeps_subs (s : DWState) (wid : Nat) :
    (cleanupDeps s wid).subs =
      removeSubsMap s.subs wid (s.w wid).deps.reverse (s.w wid).newDepIds := rfl

theorem cleanupDeps_mem_self (s : DWState) (wid : Nat)
    (h : ∀ d, (s.subs d).Nodup) (d : Nat) :
    wid ∈ (cleanupDeps s wid).subs d ↔
      (wid ∈ s.subs d ∧ (d ∉ (s.w wid).deps ∨ d ∈ (s.w wid).newDepIds)) := by
  rw [cleanupDeps_subs, removeSubsMap_mem_self s.subs wid _ _ h d, List.mem_reverse]

theorem cleanupDeps_mem_ne (s : DWState) {w' wid : Nat} (hne : w' ≠ wid) (d : Nat) :
    w' ∈ (cleanupDeps s wid).subs d ↔ w' ∈ s.subs d := by
  rw [cleanupDeps_subs, removeSubsMap_mem_ne s.subs hne]

theorem cleanupDeps_wf (s : DWState) (wid : Nat) (h : Wf s) :
    Wf (cleanupDeps s wid) := by
  refine ⟨?_, ?_, ?_⟩
  · intro d w' hw'
    by_cases hww : w' = wid
    · subst hww
      rw [cleanupDeps_w_self] at hw' ⊢
      have hact : (s.w w').active = true := hw'
      rw [cleanupDeps_mem_self s w' h.nodup d]
      have base := h.inv d w' hact
      have hcoh := (h.coh w').1 d
      simp only [List.not_mem_nil, or_false]
      constructor
      · rintro ⟨h1, h2⟩
        rcases h2 with h2 | h2
        · rcases base.mp h1 with hc | hc
          · exact absurd (hcoh.mpr hc) h2
          · exact hc
        · exact h2
      · intro hnew
        exact ⟨base.mpr (Or.inr hnew), Or.inr hnew⟩
    · rw [cleanupDeps_w_ne s hww]
      rw [cleanupDeps_mem_ne s hww d]
      exact h.inv d w' (by rw [cleanupDeps_w_ne s hww] at hw'; exact hw')
  · intro d
    rw [cleanupDeps_subs]
    exact removeSubsMap_nodup s.subs wid _ _ h.nodup d
  · intro w'
    by_cases hww : w' = wid
    · subst hww
      rw [cleanupDeps_w_self]
      exact ⟨fun d => (h.coh w').2 d, fun d => Iff.rfl⟩
    · rw [cleanupDeps_w_ne s hww]
      exact h.coh w'

theorem teardown_of_inactive {s : DWState} {wid : Nat}
    (h : (s.w wid).active = false) : teardown s wid = s := by
  simp [teardown, h]

theorem teardown_w_self (s : DWState) (wid : Nat)
    (hact : (s.w wid).active = true) :
    (teardown s wid).w wid = { s.w wid with active := false } := by
  simp [teardown, hact, removeSubs, setW]

theorem teardown_w_ne (s : DWState) {w' wid : Nat} (hne : w' ≠ wid)
    (hact : (s.w wid).active = true) :
    (teardown s wid).w w' = s.w w' := by
  by_cases hbd : s.isBeingDestroyed <;>
    simp [teardown, hact, removeSubs, setW, hne, hbd]

theorem teardown_subs (s : DWState) (wid : Nat)
    (hact : (s.w wid).active = true) :
    (teardown s wid).subs =
      removeSubsMap s.subs wid (s.w wid).deps.reverse [] := by
  by_cases hbd : s.isBeingDestroyed <;>
    simp [teardown, hact, removeSubs, setW, hbd]

theorem teardown_wf (s : DWState) (wid : Nat) (h : Wf s) :
    Wf (teardown s wid) := by
  by_cases hact : (s.w wid).active = true
  · refine ⟨?_, ?_, ?_⟩
    · intro d w' hw'
      by_cases hww : w' = wid
      · subst hww
        rw [teardown_w_self s w' hact] at hw'
        exact absurd hw' (by simp)
      · rw [teardown_w_ne s hww hact]
        rw [teardown_subs s wid hact, removeSubsMap_mem_ne s.subs hww]
        exact h.inv d w' (by rw [teardown_w_ne s hww hact] at hw'; exact hw')
    · intro d
      rw [teardown_subs s wid hact]
      exact removeSubsMap_nodup s.subs wid _ _ h.nodup d
    · intro w'
      by_cases hww : w' = wid
      · subst hww
        rw [teardown_w_self s w' hact]
        exact h.coh w'
      · rw [teardown_w_ne s hww hact]
        exact h.coh w'
  · rw [teardown_of_inactive (by simpa using hact)]
    exact h

theorem teardown_not_subscribed (s : DWState) (wid : Nat) (h : Wf s)
    (hact : (s.w wid).active = true)
    (hq : (s.w wid).newDepIds = []) (d : Nat) :
    wid ∉ (teardown s wid).subs d := by
  rw [teardown_subs s wid hact]
  rw [removeSubsMap_mem_self s.subs wid _ _ h.nodup d]
  simp only [List.mem_reverse, List.not_mem_nil, or_false]
  rintro ⟨h1, h2⟩
  rcases (h.inv d wid hact).mp h1 with hc | hc
  · exact h2 (((h.coh wid).1 d).mpr hc)
  · rw [hq] at hc
    exact absurd hc (List.not_mem_nil d)

theorem getDeps_eq (s : DWState) (wid : Nat) (touched : List Nat) :
    getDeps s wid touched = cleanupDeps (addDepsList s wid touched) wid := rfl

theorem dwCex_wf : Wf dwCex := by
  refine ⟨?_, ?_, ?_⟩
  · intro d wid hact
    by_cases hw : wid = 1
    · subst hw
      by_cases hd : d = 0 <;> simp [dwCex, hd]
    · simp [dwCex, hw] at hact
  · intro d
    by_cases hd : d = 0 <;> simp [dwCex, hd]
  · intro wid
    by_cases hw : wid = 1 <;> simp [dwCex, hw]

/-! ## Claim theorems about the Dep / Watcher registries -/

/-- C1 counterexample: in the concrete registry `dwCex` the mutual-membership
biconditional `w ∈ d.subs ↔ d ∈ w.deps` holds at quiescence (dep 0, watcher
1), but it is NOT preserved by `Watcher.teardown` — teardown removes the
watcher from dep 0's `subs` yet leaves `0` inside `watcher.deps` — nor by a
single `Watcher.addDep` — `addDep` pushes the watcher into dep 5's `subs`
while `5` only enters `newDeps`, not `deps`. -/
theorem dep_watcher_mutual_membership_cex :
    (1 ∈ dwCex.subs 0 ↔ 0 ∈ (dwCex.w 1).deps) ∧
    ¬ (1 ∈ (teardown dwCex 1).subs 0 ↔ 0 ∈ ((teardown dwCex 1).w 1).deps) ∧
    ¬ (1 ∈ (addDep dwCex 1 5).subs 5 ↔ 5 ∈ ((addDep dwCex 1 5).w 1).deps) := by
  decide

/-- C1 (amended): at every quiescent moment, for every dep `d` and every
ACTIVE, fully-collected watcher `w` (its `newDepIds` drained), `w ∈ d.subs ↔
d ∈ w.deps`.  The generalized invariant `Wf` is preserved by `addDep`
mid-collection; a full evaluation (`addDep` over the touched deps followed
by `cleanupDeps`, i.e. `getDeps`) re-establishes the biconditional for the
evaluated watcher; and `teardown` preserves the invariant for the watchers
that remain active (the torn-down watcher itself becomes inactive and keeps
its stale `deps` list). -/
theorem dep_watcher_mutual_membership (s : DWState) (wid d : Nat)
    (touched : List Nat) (h : Wf s) (hact : (s.w wid).active = true) :
    (∀ w' d', (s.w w').active = true → (s.w w').newDepIds = [] →
        (w' ∈ s.subs d' ↔ d' ∈ (s.w w').deps)) ∧
    Wf (addDep s wid d) ∧
    (Wf (getDeps s wid touched) ∧
      ∀ d', wid ∈ (getDeps s wid touched).subs d' ↔
        d' ∈ ((getDeps s wid touched).w wid).deps) ∧
    Wf (teardown s wid) := by
  obtain ⟨hwf1, hact1, hids1, hdeps1, hnew1⟩ := addDepsList_spec touched s wid h hact
  refine ⟨?_, addDep_wf s wid d hact h, ⟨?_, ?_⟩, teardown_wf s wid h⟩
  · intro w' d' ha hq
    rw [h.inv d' w' ha, hq, ((h.coh w').1 d')]
    simp
  · rw [getDeps_eq]
    exact cleanupDeps_wf _ wid hwf1
  · intro d'
    rw [getDeps_eq]
    have hfin := cleanupDeps_wf (addDepsList s wid touched) wid hwf1
    have hw := cleanupDeps_w_self (addDepsList s wid touched) wid
    have hact2 :
        ((cleanupDeps (addDepsList s wid touched) wid).w wid).active = true := by
      rw [hw]
      exact hact1
    rw [hfin.inv d' wid hact2, hw]
    simp only [List.not_mem_nil, or_false]
    exact ((hwf1.coh wid).2 d').symm

/-- Witness for C1: the hypotheses of `dep_watcher_mutual_membership` hold
in the concrete registry `dwCex` (watcher 1 active), and the conclusion
follows there for `addDep` of dep 5 and an evaluation touching dep 0. -/
theorem dep_watcher_mutual_membership_witness :
    Wf dwCex ∧ (dwCex.w 1).active = true ∧
    ((∀ w' d', (dwCex.w w').active = true → (dwCex.w w').newDepIds = [] →
        (w' ∈ dwCex.subs d' ↔ d' ∈ (dwCex.w w').deps)) ∧
      Wf (addDep dwCex 1 5) ∧
      (Wf (getDeps dwCex 1 [0]) ∧
        ∀ d', 1 ∈ (getDeps dwCex 1 [0]).subs d' ↔
          d' ∈ ((getDeps dwCex 1 [0]).w 1).deps) ∧
      Wf (teardown dwCex 1)) :=
  ⟨dwCex_wf, rfl, dep_watcher_mutual_membership dwCex 1 5 [0] dwCex_wf rfl⟩

/-- C3: after any successful `Watcher.get()` — modelled by `getDeps`, the
fold of `addDep` over the deps whose `depend()` was reached followed by
`cleanupDeps` — the watcher's `newDeps` and `newDepIds` are empty, its
`deps`/`depIds` contain exactly the deps touched during that evaluation,
and every dep of the previous cycle that was not re-read has had this
watcher removed from its subscriber list. -/
theorem watcher_get_recollects_exactly (s : DWState) (wid : Nat)
    (touched : List Nat) (h : Wf s) (hact : (s.w wid).active = true)
    (hq : (s.w wid).newDepIds = []) :
    ((getDeps s wid touched).w wid).newDeps = [] ∧
    ((getDeps s wid touched).w wid).newDepIds = [] ∧
    (∀ d, d ∈ ((getDeps s wid touched).w wid).deps ↔ d ∈ touched) ∧
    (∀ d, d ∈ ((getDeps s wid touched).w wid).depIds ↔ d ∈ touched) ∧
    (∀ d, d ∈ (s.w wid).deps → d ∉ touched →
        wid ∉ (getDeps s wid touched).subs d) := by
  obtain ⟨hwf1, hact1, hids1, hdeps1, hnew1⟩ := addDepsList_spec touched s wid h hact
  have hw := cleanupDeps_w_self (addDepsList s wid touched) wid
  have hq' : ∀ d, d ∈ ((addDepsList s wid touched).w wid).newDepIds ↔ d ∈ touched := by
    intro d
    rw [hnew1 d, hq]
    simp
  refine ⟨?_, ?_, ?_, ?_, ?_⟩
  · rw [getDeps_eq, hw]
  · rw [getDeps_eq, hw]
  · intro d
    rw [getDeps_eq, hw]
    dsimp only
    rw [(hwf1.coh wid).2 d, hq' d]
  · intro d
    rw [getDeps_eq, hw]
    dsimp only
    rw [hq' d]
  · intro d hd hnt
    rw [getDeps_eq,
      cleanupDeps_mem_self (addDepsList s wid touched) wid hwf1.nodup d]
    rintro ⟨h1, h2⟩
    rcases h2 with h2 | h2
    · rw [hdeps1] at h2
      exact h2 hd
    · rw [hq' d] at h2
      exact hnt h2

/-- Witness for C3: in `dwCex`, watcher 1 (old deps `[0]`) re-evaluates
touching only dep 2: afterwards its collection buffers are empty, its deps
are exactly `[2]`, and it is unsubscribed from the stale dep 0. -/
theorem watcher_get_recollects_exactly_witness :
    Wf dwCex ∧ (dwCex.w 1).active = true ∧ (dwCex.w 1).newDepIds = [] ∧
    (((getDeps dwCex 1 [2]).w 1).newDeps = [] ∧
     ((getDeps dwCex 1 [2]).w 1).newDepIds = [] ∧
     (∀ d, d ∈ ((getDeps dwCex 1 [2]).w 1).deps ↔ d ∈ [2]) ∧
     (∀ d, d ∈ ((getDeps dwCex 1 [2]).w 1).depIds ↔ d ∈ [2]) ∧
     (∀ d, d ∈ (dwCex.w 1).deps → d ∉ [2] → 1 ∉ (getDeps dwCex 1 [2]).subs d)) :=
  ⟨dwCex_wf, rfl, rfl, watcher_get_recollects_exactly dwCex 1 [2] dwCex_wf rfl rfl⟩

/-- C8: after `teardown()` on an active, fully-collected watcher, the
watcher is absent from every dep's subscriber list and its `active` flag is
false; consequently no `dep.notify()` snapshot can contain it (so `update()`
— the only path into the scheduler queue — is never invoked on it), and any
later `run()` is a no-op on the registries. -/
theorem teardown_detaches (s : DWState) (wid : Nat) (h : Wf s)
    (hact : (s.w wid).active = true) (hq : (s.w wid).newDepIds = []) :
    ((teardown s wid).w wid).active = false ∧
    (∀ d, wid ∉ (teardown s wid).subs d) ∧
    (∀ d, wid ∉ notifyTargets (teardown s wid) d) ∧
    (∀ touched, runDeps (teardown s wid) wid touched = teardown s wid) := by
  have hw := teardown_w_self s wid hact
  have hns := teardown_not_subscribed s wid h hact hq
  refine ⟨?_, hns, hns, ?_⟩
  · rw [hw]
  · intro touched
    simp [runDeps, hw]

/-- Witness for C8: tearing watcher 1 down in `dwCex` deactivates it,
unsubscribes it from dep 0, and makes `run` a no-op. -/
theorem teardown_detaches_witness :
    Wf dwCex ∧ (dwCex.w 1).active = true ∧ (dwCex.w 1).newDepIds = [] ∧
    (((teardown dwCex 1).w 1).active = false ∧
     (∀ d, 1 ∉ (teardown dwCex 1).subs d) ∧
     (∀ d, 1 ∉ notifyTargets (teardown dwCex 1) d) ∧
     (∀ touched, runDeps (teardown dwCex 1) 1 touched = teardown dwCex 1)) :=
  ⟨dwCex_wf, rfl, rfl, teardown_detaches dwCex 1 dwCex_wf rfl rfl⟩

/-! ## Lemmas about the scheduler -/

theorem insertAt_length (q : List Nat) (p a : Nat) :
    (insertAt q p a).length = q.length + 1 := by
  induction q generalizing p with
  | nil => cases p <;> rfl
  | cons x xs ih =>
      cases p with
      | zero => rfl
      | succ p' => simp [insertAt, ih]

theorem insertAt_getD_lt (q : List Nat) (p a j : Nat) (hj : j < p)
    (hjq : j < q.length) :
    (insertAt q p a).getD j 0 = q.getD j 0 := by
  induction q generalizing p j with
  | nil => exact absurd hjq (by simp)
  | cons x xs ih =>
      cases p with
      | zero => exact absurd hj (Nat.not_lt_zero j)
      | succ p' =>
          cases j with
          | zero => rfl
          | succ j' =>
              simp only [insertAt, List.getD_cons_succ]
              exact ih p' j' (Nat.lt_of_succ_lt_succ hj)
                (by simpa using Nat.lt_of_succ_lt_succ hjq)

theorem insertAt_getD_eq (q : List Nat) (p a : Nat) (hp : p ≤ q.length) :
    (insertAt q p a).getD p 0 = a := by
  induction q generalizing p with
  | nil =>
      have : p = 0 := Nat.le_zero.mp (by simpa using hp)
      subst this
      rfl
  | cons x xs ih =>
      cases p with
      | zero => rfl
      | succ p' =>
          simp only [insertAt, List.getD_cons_succ]
          exact ih p' (by simpa using hp)

theorem insertAt_getD_gt (q : List Nat) (p a j : Nat) (hj : p < j)
    (hjq : j ≤ q.length) :
    (insertAt q p a).getD j 0 = q.getD (j - 1) 0 := by
  induction q generalizing p j with
  | nil =>
      have : j = 0 := Nat.le_zero.mp (by simpa using hjq)
      omega
  | cons x xs ih =>
      cases p with
      | zero =>
          cases j with
          | zero => exact absurd hj (Nat.lt_irrefl 0)
          | succ j' => rfl
      | succ p' =>
          cases j with
          | zero => exact absurd hj (Nat.not_lt_zero _)
          | succ j' =>
              simp only [insertAt, List.getD_cons_succ, Nat.succ_sub_one]
              cases j' with
              | zero => exact absurd hj (by omega)
              | succ j'' =>
                  have := ih p' (j'' + 1) (Nat.lt_of_succ_lt_succ hj)
                    (by simpa using Nat.le_of_succ_le_succ hjq)
                  simpa using this

theorem insertAt_take (q : List Nat) (p a m : Nat) (hm : m ≤ p)
    (hmq : m ≤ q.length) :
    (insertAt q p a).take m = q.take m := by
  induction q generalizing p m with
  | nil =>
      have : m = 0 := Nat.le_zero.mp (by simpa using hmq)
      subst this
      rfl
  | cons x xs ih =>
      cases m with
      | zero => rfl
      | succ m' =>
          cases p with
          | zero => exact absurd hm (by omega)
          | succ p' =>
              simp only [insertAt, List.take_succ_cons]
              rw [ih p' m' (Nat.le_of_succ_le_succ hm) (by simpa using hmq)]

theorem insertAt_mem (q : List Nat) (p a : Nat) : a ∈ insertAt q p a := by
  induction q generalizing p with
  | nil => cases p <;> simp [insertAt]
  | cons x xs ih =>
      cases p with
      | zero => simp [insertAt]
      | succ p' =>
          simp only [insertAt, List.mem_cons]
          exact Or.inr (ih p')

theorem insertLoop_le (q : List Nat) (index wid : Nat) :
    ∀ i, insertLoop q index wid i ≤ i := by
  intro i
  induction i with
  | zero => simp [insertLoop]
  | succ i ih =>
      rw [insertLoop]
      split
      · exact ih.trans (Nat.le_succ i)
      · exact Nat.le_refl _

theorem insertLoop_ge (q : List Nat) (index wid : Nat) :
    ∀ i, index ≤ i → index ≤ insertLoop q index wid i := by
  intro i
  induction i with
  | zero => intro h; simpa [insertLoop] using h
  | succ i ih =>
      intro h
      rw [insertLoop]
      split
      · next hc => exact ih (by omega)
      · exact h

theorem insertLoop_gt_above (q : List Nat) (index wid : Nat) :
    ∀ i j, insertLoop q index wid i < j → j ≤ i → wid < q.getD j 0 := by
  intro i
  induction i with
  | zero => intro j h1 h2; omega
  | succ i ih =>
      intro j h1 h2
      rw [insertLoop] at h1
      by_cases hc : index < i + 1 ∧ wid < q.getD (i + 1) 0
      · rw [if_pos hc] at h1
        by_cases hji : j ≤ i
        · exact ih j h1 hji
        · have : j = i + 1 := by omega
          exact this ▸ hc.2
      · rw [if_neg hc] at h1
        omega

theorem insertLoop_stop (q : List Nat) (index wid : Nat) :
    ∀ i, index < insertLoop q index wid i →
      q.getD (insertLoop q index wid i) 0 ≤ wid := by
  intro i
  induction i with
  | zero => intro h; simp [insertLoop] at h
  | succ i ih =>
      intro h
      rw [insertLoop] at h ⊢
      by_cases hc : index < i + 1 ∧ wid < q.getD (i + 1) 0
      · rw [if_pos hc] at h ⊢
        exact ih h
      · rw [if_neg hc] at h ⊢
        push_neg at hc
        exact hc h

theorem queueWatcher_flushing_queue (s : SchedState) (wid : Nat)
    (hh : s.has wid = false) (hf : s.flushing = true) :
    (queueWatcher s wid).queue = insertAt s.queue (insertPos s wid) wid ∧
    (queueWatcher s wid).index = s.index := by
  by_cases hw : s.waiting <;>
    simp [queueWatcher, hh, hf, hw, insertPos]

/-! ## Claim theorems about the scheduler -/

/-- C2 counterexample: with pending watchers 1, 4, 5 and watcher 5
re-enqueuing the already-processed watcher 4 during its own run, the flush
runs the watchers in the order 1, 4, 5, 4 — watcher 4's second run comes
after watcher 5, so the run sequence of one flush is NOT strictly ascending
in id. -/
theorem flush_ascending_order_cex :
    (flushSchedulerQueue (fun wid n => if wid = 5 ∧ n = 0 then [4] else []) 10
        (schedInit [1, 4, 5])).runOrder = [1, 4, 5, 4] ∧
    ascendingIds
      (flushSchedulerQueue (fun wid n => if wid = 5 ∧ n = 0 then [4] else []) 10
        (schedInit [1, 4, 5])).runOrder = false := by
  decide

/-- C2 (amended): while a flush is draining, `queueWatcher` splices the new
watcher at a position strictly after the current `index` (so it runs later
in the same flush and never at or before the position being processed), it
leaves the already-processed prefix untouched, and it preserves the
ascending-id order of the strictly-unprocessed part of the queue — the
watchers not yet run still execute in ascending id order, but (per the
counterexample) a watcher whose queue slot has already been passed may be
re-run after higher ids, so the full run sequence need not ascend. -/
theorem flush_insert_after_index (s : SchedState) (wid : Nat)
    (hf : s.flushing = true) (hh : s.has wid = false)
    (hlen : s.index < s.queue.length)
    (hsort : ∀ i j, s.index < i → i < j → j < s.queue.length →
        s.queue.getD i 0 ≤ s.queue.getD j 0) :
    (queueWatcher s wid).queue = insertAt s.queue (insertPos s wid) wid ∧
    s.index < insertPos s wid ∧
    insertPos s wid ≤ s.queue.length ∧
    (queueWatcher s wid).queue.length = s.queue.length + 1 ∧
    (queueWatcher s wid).queue.take (s.index + 1) = s.queue.take (s.index + 1) ∧
    (queueWatcher s wid).queue.getD (insertPos s wid) 0 = wid ∧
    wid ∈ (queueWatcher s wid).queue ∧
    (∀ i j, s.index < i → i < j → j < (queueWatcher s wid).queue.length →
        (queueWatcher s wid).queue.getD i 0 ≤ (queueWatcher s wid).queue.getD j 0) := by
  obtain ⟨hq, _⟩ := queueWatcher_flushing_queue s wid hh hf
  set n := s.queue.length with hn
  set r := insertLoop s.queue s.index wid (n - 1) with hr
  have hp : insertPos s wid = r + 1 := rfl
  have hrle : r ≤ n - 1 := insertLoop_le s.queue s.index wid (n - 1)
  have hrge : s.index ≤ r := insertLoop_ge s.queue s.index wid (n - 1) (by omega)
  have hpn : insertPos s wid ≤ n := by omega
  have hpgt : s.index < insertPos s wid := by omega
  have habove : ∀ j, r < j → j ≤ n - 1 → wid < s.queue.getD j 0 :=
    insertLoop_gt_above s.queue s.index wid (n - 1)
  have hstop : s.index < r → s.queue.getD r 0 ≤ wid := by
    intro h
    exact insertLoop_stop s.queue s.index wid (n - 1) (hr ▸ h)
  refine ⟨hq, hpgt, hpn, ?_, ?_, ?_, ?_, ?_⟩
  · rw [hq, insertAt_length]
  · rw [hq]
    exact insertAt_take s.queue _ wid (s.index + 1) hpgt hlen
  · rw [hq]
    exact insertAt_getD_eq s.queue _ wid hpn
  · rw [hq]
    exact insertAt_mem s.queue _ wid
  · intro i j hi hij hj
    rw [hq, insertAt_length] at hj
    rw [hq, hp]
    have hrp : r + 1 ≤ n := hp ▸ hpn
    -- compare every index pair against the insertion position r + 1
    rcases Nat.lt_trichotomy j (r + 1) with hjp | hjp | hjp
    · rw [insertAt_getD_lt s.queue (r + 1) wid i (by omega) (by omega),
        insertAt_getD_lt s.queue (r + 1) wid j (by omega) (by omega)]
      exact hsort i j hi hij (by omega)
    · rw [insertAt_getD_lt s.queue (r + 1) wid i (by omega) (by omega), hjp,
        insertAt_getD_eq s.queue (r + 1) wid hrp]
      have hidxr : s.index < r := by omega
      have hqr : s.queue.getD i 0 ≤ s.queue.getD r 0 := by
        rcases Nat.lt_or_ge i r with hlt | hge
        · exact hsort i r hi hlt (by omega)
        · have hir : i = r := by omega
          exact hir ▸ Nat.le_refl _
      exact hqr.trans (hstop hidxr)
    · have hwj : wid < s.queue.getD (j - 1) 0 := habove (j - 1) (by omega) (by omega)
      rw [insertAt_getD_gt s.queue (r + 1) wid j (by omega) (by omega)]
      rcases Nat.lt_trichotomy i (r + 1) with hip | hip | hip
      · rw [insertAt_getD_lt s.queue (r + 1) wid i (by omega) (by omega)]
        exact hsort i (j - 1) hi (by omega) (by omega)
      · rw [hip, insertAt_getD_eq s.queue (r + 1) wid hrp]
        exact Nat.le_of_lt hwj
      · rw [insertAt_getD_gt s.queue (r + 1) wid i (by omega) (by omega)]
        exact hsort (i - 1) (j - 1) (by omega) (by omega) (by omega)

theorem queueWatcher_circular (s : SchedState) (wid : Nat) :
    (queueWatcher s wid).circular = s.circular := by
  by_cases h1 : s.has wid
  · simp [queueWatcher, h1]
  · by_cases h3 : s.flushing <;> by_cases h2 : s.waiting <;>
      simp [queueWatcher, h1, h3, h2]

theorem foldl_queueWatcher_circular (l : List Nat) (s : SchedState) :
    (l.foldl queueWatcher s).circular = s.circular := by
  induction l generalizing s with
  | nil => rfl
  | cons x xs ih => rw [List.foldl_cons, ih, queueWatcher_circular]

/-- Across one drain, the self-re-enqueue counter `circular[id]` never
exceeds `MAX_UPDATE_COUNT + 1`: each iteration bumps the current watcher's
counter by at most one, and the moment a counter passes `MAX_UPDATE_COUNT`
the drain breaks. -/
theorem flushLoop_circular_le (beh : Nat → Nat → List Nat) :
    ∀ fuel (s : SchedState), (∀ i, s.circular i ≤ MAX_UPDATE_COUNT) →
      ∀ i, (flushLoop beh fuel s).circular i ≤ MAX_UPDATE_COUNT + 1 := by
  intro fuel
  induction fuel with
  | zero =>
      intro s h i
      exact (h i).trans (Nat.le_succ _)
  | succ fuel ih =>
      intro s h i
      rw [flushLoop]
      by_cases hidx : s.index < s.queue.length
      · rw [if_pos hidx]
        dsimp only
        set wid := s.queue.getD s.index 0 with hwid
        set s3 := (beh wid (s.runOrder.count wid)).foldl queueWatcher
          { s with has := fun i => if i = wid then false else s.has i
                   runOrder := s.runOrder ++ [wid] } with hs3
        have hc3 : s3.circular = s.circular := by
          rw [hs3, foldl_queueWatcher_circular]
        by_cases hh : s3.has wid = true
        · rw [if_pos hh]
          by_cases hbig : MAX_UPDATE_COUNT < s3.circular wid + 1
          · rw [if_pos hbig]
            dsimp only
            by_cases hiw : i = wid
            · rw [if_pos hiw, hc3]
              have := h wid
              omega
            · rw [if_neg hiw, hc3]
              exact (h i).trans (Nat.le_succ _)
          · rw [if_neg hbig]
            refine ih _ ?_ i
            intro i'
            dsimp only
            by_cases hiw : i' = wid
            · rw [if_pos hiw, hc3]
              rw [hc3] at hbig
              omega
            · rw [if_neg hiw, hc3]
              exact h i'
        · rw [if_neg hh]
          refine ih _ ?_ i
          intro i'
          show s3.circular i' ≤ _
          rw [hc3]
          exact h i'
      · rw [if_neg hidx]
        exact (h i).trans (Nat.le_succ _)

set_option maxRecDepth 40000 in
/-- C5 counterexample: a single watcher (id 1) whose run always re-enqueues
itself is run 101 times in one flush — `MAX_UPDATE_COUNT` (100) is exceeded,
because the guard only breaks once `circular[id] > MAX_UPDATE_COUNT`, i.e.
after the 101st run. -/
theorem flush_update_budget_cex :
    MAX_UPDATE_COUNT <
      (flushSchedulerQueue (fun _ _ => [1]) 200 (schedInit [1])).runOrder.count 1 := by
  decide

set_option maxRecDepth 40000 in
/-- C5 (amended): the dev-mode guard counts, per flush, how many times each
watcher re-enqueues itself during its own run (`circular[id]`); that counter
never exceeds `MAX_UPDATE_COUNT + 1`, and the moment it passes
`MAX_UPDATE_COUNT` the flush emits the diagnostic naming the offending
watcher and aborts the drain.  Concretely, a watcher that re-enqueues itself
on every run is run exactly `MAX_UPDATE_COUNT + 1 = 101` times — one more
than the claimed bound — after which `warned` names it and the drain stops
even though fuel remains. -/
theorem flush_update_budget (beh : Nat → Nat → List Nat) (fuel : Nat)
    (s : SchedState) (h : ∀ i, s.circular i ≤ MAX_UPDATE_COUNT) :
    (∀ i, (flushLoop beh fuel s).circular i ≤ MAX_UPDATE_COUNT + 1) ∧
    ((flushSchedulerQueue (fun _ _ => [1]) 200 (schedInit [1])).runOrder.count 1
        = MAX_UPDATE_COUNT + 1 ∧
      (flushSchedulerQueue (fun _ _ => [1]) 200 (schedInit [1])).warned = some 1) :=
  ⟨flushLoop_circular_le beh fuel s h, by decide, by decide⟩

/-- Witness for C5: the all-zero counters of `schedInit [1]` satisfy the
budget hypothesis, and the conclusion follows there. -/
theorem flush_update_budget_witness :
    (∀ i, (schedInit [1]).circular i ≤ MAX_UPDATE_COUNT) ∧
    ((∀ i, (flushLoop (fun _ _ => [1]) 5 (schedInit [1])).circular i ≤
        MAX_UPDATE_COUNT + 1) ∧
      ((flushSchedulerQueue (fun _ _ => [1]) 200 (schedInit [1])).runOrder.count 1
          = MAX_UPDATE_COUNT + 1 ∧
        (flushSchedulerQueue (fun _ _ => [1]) 200 (schedInit [1])).warned = some 1)) :=
  ⟨fun _ => Nat.zero_le _,
    flush_update_budget (fun _ _ => [1]) 5 (schedInit [1]) (fun _ => Nat.zero_le _)⟩

/-- A scheduler state mid-flush: sorted queue `[1, 4, 5]`, drain position 0
(watcher 1 currently running, its `has` flag already cleared), watchers 4
and 5 still pending. -/
def schedMid : SchedState :=
  { queue := [1, 4, 5]
    has := fun i => [4, 5].contains i
    circular := fun _ => 0
    waiting := true
    flushing := true
    index := 0
    runOrder := [1]
    warned := none }

/-- Witness for C2: enqueuing watcher 2 while the flush drains `schedMid`
at index 0 splices it into the sorted unprocessed suffix, strictly after the
drain position. -/
theorem flush_insert_after_index_witness :
    schedMid.flushing = true ∧ schedMid.has 2 = false ∧
    schedMid.index < schedMid.queue.length ∧
    ((queueWatcher schedMid 2).queue =
        insertAt schedMid.queue (insertPos schedMid 2) 2 ∧
      schedMid.index < insertPos schedMid 2 ∧
      insertPos schedMid 2 ≤ schedMid.queue.length ∧
      (queueWatcher schedMid 2).queue.length = schedMid.queue.length + 1 ∧
      (queueWatcher schedMid 2).queue.take (schedMid.index + 1) =
        schedMid.queue.take (schedMid.index + 1) ∧
      (queueWatcher schedMid 2).queue.getD (insertPos schedMid 2) 0 = 2 ∧
      2 ∈ (queueWatcher schedMid 2).queue ∧
      (∀ i j, schedMid.index < i → i < j →
          j < (queueWatcher schedMid 2).queue.length →
          (queueWatcher schedMid 2).queue.getD i 0 ≤
            (queueWatcher schedMid 2).queue.getD j 0)) := by
  refine ⟨rfl, by decide, by decide, ?_⟩
  refine flush_insert_after_index schedMid 2 rfl (by decide) (by decide) ?_
  intro i j hi hij hj
  have hj3 : j < 3 := hj
  have hi1 : i = 1 := by omega
  have hj2 : j = 2 := by omega
  subst hi1
  subst hj2
  decide

/-! ## Claim theorems: reactive setter, observe, set/del, array mutators -/

/-- C4: the setter installed by `defineReactive` ignores an assignment whose
value is strictly equal to the current one — with the NaN exception, two NaN
values counting as equal, which is exactly Lean-level equality on `JVal` by
`jsStrictEq_skip_iff` — leaving the property state untouched (no `notify`,
no stored-value change); any other assignment stores the new value and fires
`dep.notify()` exactly once. -/
theorem reactive_setter_notify_iff (s : PropState) (n : JVal) :
    (n = s.val → reactiveSetter s n = s) ∧
    (n ≠ s.val →
      (reactiveSetter s n).val = n ∧
      (reactiveSetter s n).notifies = s.notifies + 1) := by
  constructor
  · intro h
    have hc := (jsStrictEq_skip_iff n s.val).mpr h
    simp [reactiveSetter, hc]
  · intro h
    have hc : (jsStrictEq n s.val || (!jsStrictEq n n && !jsStrictEq s.val s.val))
        = false := by
      by_contra hcc
      exact h ((jsStrictEq_skip_iff n s.val).mp (eq_true_of_ne_false hcc))
    simp [reactiveSetter, hc]

/-- Witness for C4: assigning NaN over NaN leaves the property untouched
(no notify); assigning 4 over 3 stores 4 and notifies exactly once. -/
theorem reactive_setter_notify_iff_witness :
    (JVal.nan = (PropState.mk JVal.nan 0 []).val ∧
      reactiveSetter (PropState.mk JVal.nan 0 []) JVal.nan
        = PropState.mk JVal.nan 0 []) ∧
    (JVal.num 4 ≠ (PropState.mk (JVal.num 3) 0 []).val ∧
      (reactiveSetter (PropState.mk (JVal.num 3) 0 []) (JVal.num 4)).val
          = JVal.num 4 ∧
      (reactiveSetter (PropState.mk (JVal.num 3) 0 []) (JVal.num 4)).notifies
          = 0 + 1) :=
  ⟨⟨rfl, (reactive_setter_notify_iff (PropState.mk JVal.nan 0 []) JVal.nan).1 rfl⟩,
    ⟨by decide,
      (reactive_setter_notify_iff (PropState.mk (JVal.num 3) 0 [])
        (JVal.num 4)).2 (by decide)⟩⟩

/-- C6: `observe` on a value that already carries an Observer returns that
same Observer id, allocates no new Observer (`nextUid` unchanged), leaves
the `__ob__` table untouched, and does not re-walk the value; when
`asRootData` is not set the heap is unchanged entirely (with `asRootData`
only that Observer's `vmCount` is bumped). -/
theorem observe_idempotent (h : ObsHeap) (v : OValue) (asRootData : Bool)
    (o : Nat) (hobj : v.observable = true) (hob : h.ob v.objId = some o) :
    (observe h v asRootData).1 = some o ∧
    (observe h v asRootData).2.ob = h.ob ∧
    (observe h v asRootData).2.nextUid = h.nextUid ∧
    (observe h v asRootData).2.walked = h.walked ∧
    (asRootData = false → (observe h v asRootData).2 = h) := by
  cases asRootData <;> simp [observe, hobj, hob]

/-- Witness for C6: in a heap where object 7 already carries observer 3,
observing it again (as root data) returns observer 3 and allocates
nothing. -/
theorem observe_idempotent_witness :
    (OValue.plain 7 true false).observable = true ∧
    (ObsHeap.mk (fun i => if i = 7 then some 3 else none) (fun _ => 0) 4 [7]
        true false).ob (OValue.plain 7 true false).objId = some 3 ∧
    ((observe (ObsHeap.mk (fun i => if i = 7 then some 3 else none) (fun _ => 0)
        4 [7] true false) (OValue.plain 7 true false) true).1 = some 3 ∧
      (observe (ObsHeap.mk (fun i => if i = 7 then some 3 else none) (fun _ => 0)
        4 [7] true false) (OValue.plain 7 true false) true).2.ob =
        (ObsHeap.mk (fun i => if i = 7 then some 3 else none) (fun _ => 0) 4 [7]
          true false).ob ∧
      (observe (ObsHeap.mk (fun i => if i = 7 then some 3 else none) (fun _ => 0)
        4 [7] true false) (OValue.plain 7 true false) true).2.nextUid = 4 ∧
      (observe (ObsHeap.mk (fun i => if i = 7 then some 3 else none) (fun _ => 0)
        4 [7] true false) (OValue.plain 7 true false) true).2.walked = [7] ∧
      (true = false →
        (observe (ObsHeap.mk (fun i => if i = 7 then some 3 else none)
          (fun _ => 0) 4 [7] true false) (OValue.plain 7 true false) true).2 =
          ObsHeap.mk (fun i => if i = 7 then some 3 else none) (fun _ => 0) 4 [7]
            true false)) :=
  ⟨rfl, rfl,
    observe_idempotent
      (ObsHeap.mk (fun i => if i = 7 then some 3 else none) (fun _ => 0) 4 [7]
        true false)
      (OValue.plain 7 true false) true 3 rfl rfl⟩

theorem find?_key_append (fs : List RField) (k : String) (f : RField)
    (hf : (f.key == k) = true)
    (h : fs.any (fun g => g.key == k) = false) :
    (fs ++ [f]).find? (fun g => g.key == k) = some f := by
  induction fs with
  | nil => simp [List.find?, hf]
  | cons g rest ih =>
      simp only [List.any_cons, Bool.or_eq_false_iff] at h
      simp only [List.cons_append, List.find?, h.1]
      exact ih h.2

/-- C7 counterexample: a component's root `$data` record is an observed
record (`observe(data, true)` bumped its `vmCount` to 1), yet `set` of the
fresh key "b" on it hits the `target._isVue || (ob && ob.vmCount)` guard and
returns without installing the key — reading "b" back yields nothing instead
of the stored value — and without notifying: the previously-subscribed
watcher 2 receives zero notifications, not exactly one. -/
theorem set_new_key_notifies_once_cex :
    (RecState.mk [⟨"a", JVal.num 1, [9]⟩] false true 1 [2, 3] []).hasOb = true ∧
    hasOwnField (RecState.mk [⟨"a", JVal.num 1, [9]⟩] false true 1 [2, 3] []) "b"
        = false ∧
    setRec (RecState.mk [⟨"a", JVal.num 1, [9]⟩] false true 1 [2, 3] []) "b"
        (JVal.num 5) = RecState.mk [⟨"a", JVal.num 1, [9]⟩] false true 1 [2, 3] [] ∧
    getRec (setRec (RecState.mk [⟨"a", JVal.num 1, [9]⟩] false true 1 [2, 3] [])
        "b" (JVal.num 5)) "b" = none ∧
    (setRec (RecState.mk [⟨"a", JVal.num 1, [9]⟩] false true 1 [2, 3] []) "b"
        (JVal.num 5)).updates.count 2 = 0 := by
  decide

/-- C7 (amended): on an observed record that is neither a Vue instance nor a
component's root `$data` (`ob.vmCount = 0`), `set` with a key not previously
present installs the key reactively so that reading it back yields the
stored value, and fires the structural dep exactly once — the `update()`
log grows by exactly the structural dep's subscriber snapshot, so each
previously-subscribed watcher receives exactly one notification.  On an
observed root `$data` record (`vmCount > 0`), `set` of a new key instead
warns and returns with the record entirely unchanged: nothing is installed
and nobody is notified. -/
theorem set_new_key_notifies_once (s : RecState) (k : String) (v : JVal)
    (hnew : hasOwnField s k = false) (hvue : s.isVue = false)
    (hob : s.hasOb = true) (hnd : s.structSubs.Nodup) :
    (s.vmCount = 0 →
      getRec (setRec s k v) k = some v ∧
      (setRec s k v).updates = s.updates ++ s.structSubs ∧
      (∀ w, (setRec s k v).updates.count w =
          s.updates.count w + (if w ∈ s.structSubs then 1 else 0))) ∧
    (0 < s.vmCount → setRec s k v = s) := by
  constructor
  · intro hvm
    have hset : setRec s k v =
        { s with fields := s.fields ++ [⟨k, v, []⟩]
                 updates := s.updates ++ s.structSubs } := by
      simp [setRec, hnew, hvue, hvm, hob]
    refine ⟨?_, ?_, ?_⟩
    · rw [hset]
      unfold getRec
      rw [find?_key_append s.fields k ⟨k, v, []⟩ (by simp) hnew]
      rfl
    · rw [hset]
    · intro w
      rw [hset]
      show (s.updates ++ s.structSubs).count w = _
      rw [List.count_append]
      by_cases hw : w ∈ s.structSubs
      · rw [if_pos hw, List.count_eq_one_of_mem hnd hw]
      · rw [if_neg hw, List.count_eq_zero_of_not_mem hw]
  · intro hvm
    simp [setRec, hnew, hvue, hob, hvm]

/-- Witness for C7: adding key "b" ↦ 5 to an observed non-root record with
own key "a" and structural subscribers `[2, 3]` makes `r.b = 5` readable and
notifies watchers 2 and 3 exactly once each; were the same record a root
`$data` (`vmCount > 0`), the call would be a no-op. -/
theorem set_new_key_notifies_once_witness :
    hasOwnField (RecState.mk [⟨"a", JVal.num 1, [9]⟩] false true 0 [2, 3] []) "b"
        = false ∧
    ([2, 3] : List Nat).Nodup ∧
    (((RecState.mk [⟨"a", JVal.num 1, [9]⟩] false true 0 [2, 3] []).vmCount = 0 →
        getRec (setRec (RecState.mk [⟨"a", JVal.num 1, [9]⟩] false true 0 [2, 3] [])
          "b" (JVal.num 5)) "b" = some (JVal.num 5) ∧
        (setRec (RecState.mk [⟨"a", JVal.num 1, [9]⟩] false true 0 [2, 3] []) "b"
          (JVal.num 5)).updates = [] ++ [2, 3] ∧
        (∀ w, ((setRec (RecState.mk [⟨"a", JVal.num 1, [9]⟩] false true 0 [2, 3] [])
            "b" (JVal.num 5)).updates.count w) =
          ([] : List Nat).count w + (if w ∈ ([2, 3] : List Nat) then 1 else 0))) ∧
      (0 < (RecState.mk [⟨"a", JVal.num 1, [9]⟩] false true 0 [2, 3] []).vmCount →
        setRec (RecState.mk [⟨"a", JVal.num 1, [9]⟩] false true 0 [2, 3] []) "b"
          (JVal.num 5) = RecState.mk [⟨"a", JVal.num 1, [9]⟩] false true 0 [2, 3] [])) :=
  ⟨by decide, by decide,
    set_new_key_notifies_once
      (RecState.mk [⟨"a", JVal.num 1, [9]⟩] false true 0 [2, 3] []) "b"
      (JVal.num 5) (by decide) rfl rfl (by decide)⟩

/-- C9: each intercepting wrapper returns exactly the value the original
`Array.prototype` method returns for the same arguments, and the element
contents afterwards equal what the original alone produces — the wrapper
applies the original first and only adds observation of inserted elements
and a structural notify on top. -/
theorem array_mutator_refines_original {V : Type} (op : ArrayOp V)
    (s : ArrState V) :
    (arrayMutator op s).1 = (arrayOriginal op s.elems).1 ∧
    (arrayMutator op s).2.elems = (arrayOriginal op s.elems).2 :=
  ⟨rfl, rfl⟩

/-- C10: `del` on a non-array target whose key is not an own property leaves
the target entirely unchanged — no key removed, no field modified, and no
notify on the structural dep. -/
theorem del_missing_key_noop (s : RecState) (k : String)
    (h : hasOwnField s k = false) : delRec s k = s := by
  by_cases h1 : (s.isVue || (s.hasOb && decide (0 < s.vmCount))) = true
  · simp [delRec, h1]
  · simp [delRec, h1, h]

/-- Witness for C10: deleting the absent key "b" from an observed record
with own key "a" changes nothing. -/
theorem del_missing_key_noop_witness :
    hasOwnField (RecState.mk [⟨"a", JVal.num 1, [9]⟩] false true 0 [2, 3] []) "b"
        = false ∧
    delRec (RecState.mk [⟨"a", JVal.num 1, [9]⟩] false true 0 [2, 3] []) "b"
        = RecState.mk [⟨"a", JVal.num 1, [9]⟩] false true 0 [2, 3] [] :=
  ⟨by decide,
    del_missing_key_noop
      (RecState.mk [⟨"a", JVal.num 1, [9]⟩] false true 0 [2, 3] []) "b"
      (by decide)⟩

end VueCore
